import Mathlib

/-!
Verification model of the YTFS virtual-filesystem driver (`ytfs.py`).

Paths are modelled as `List Char` (Python `str`), POSIX error numbers as the
`Errno` enumeration, and the driver state (`searches` dictionary, descriptor
table `fds`) as association lists, mirroring Python's insertion-ordered
dictionaries.  The external search/media collaborator (`YTActions`/`YTStor`
from `actions.py`, which is not part of the sources verified here) is
modelled from the specification: each search context records the phrase it
was constructed with, its visible result entries, and a log of the
pagination/search calls issued to it.
-/

/-- Strings of the Python source are modelled as lists of characters. -/
abbrev Str := List Char

/-- POSIX error numbers used by the driver (`errno` module). -/
inductive Errno
  | EPERM
  | ENOENT
  | EEXIST
  | ENOTDIR
  | EINVAL
  | EROFS
  | EBADF
deriving DecidableEq, Repr

/-- Modelled from the spec: a Result Handle (`YTStor`, from `actions.py`,
not among the verified sources).  `obtainInfoOk` is the outcome of its
`resolve()`/`obtainInfo()` metadata fetch (`false` on failure), `filesize`
its byte length once resolved, and `data` the media bytes from which
`read(offset, length)` serves ranges. -/
structure YTStor where
  obtainInfoOk : Bool
  filesize : Nat
  data : Str
deriving DecidableEq, Repr

/-- Modelled from the spec: byte-range read of a Result Handle, clipped to
the content's bounds. -/
def YTStor.read (s : YTStor) (offset length : Nat) : Str :=
  (s.data.drop offset).take length

/-- Modelled from the spec: a search context (`YTActions`, from
`actions.py`, not among the verified sources).  It is keyed by the search
`phrase` it was constructed with, owns the ordered mapping `entries` from
result name to Result Handle, and `log` records every pagination/search
call issued to it: `some true` is a forward pagination call, `some false`
a backward one, `none` the neutral/initial call. -/
structure YTActions where
  phrase : Str
  entries : List (Str × YTStor)
  log : List (Option Bool)
deriving DecidableEq, Repr

/-- Construction `YTActions(phrase)`: a fresh context with no entries and
no calls issued yet. -/
def YTActions.mkNew (phrase : Str) : YTActions :=
  { phrase := phrase, entries := [], log := [] }

/-- Modelled from the spec: `YTActions.updateResults(direction)` issues one
search/pagination call.  The collaborator's response (the new visible
entries) is taken as the parameter `outcome`; per the spec, Resolver
failures never raise out of the call — they degrade to an empty (or
partial) `outcome`.  The call itself is appended to the log. -/
def YTActions.updateResults (a : YTActions) (d : Option Bool) (outcome : List (Str × YTStor)) : YTActions :=
  { a with entries := outcome, log := a.log ++ [d] }

/-- Modelled from the spec: membership (`in`) on a search context.  A name
is contained iff it is a visible result entry or a reserved-marker
(leading space) control name — the spec states that every space-prefixed
name is accepted by `open`/`getattr` while `[]`-item access raises
`KeyError` for control names. -/
def YTActions.containsName (a : YTActions) (f : Str) : Bool :=
  (a.entries.lookup f).isSome ||
    (match f with
     | c :: _ => c = ' '
     | [] => false)

/-- Modelled from the spec: iterating a search context for a directory
listing yields the visible result names (control pseudo-files are omitted
from the literal listing logic). -/
def YTActions.toNames (a : YTActions) : List Str :=
  a.entries.map (fun p => p.1)

/-- Python dictionary update `dict[k] = v` on an insertion-ordered
association list: an existing binding is overwritten in place, a new key
is appended at the end. -/
def dictSet {α β : Type} [BEq α] [DecidableEq α] (l : List (α × β)) (k : α) (v : β) : List (α × β) :=
  if (l.lookup k).isSome then
    l.map (fun p => if p.1 = k then (k, v) else p)
  else
    l ++ [(k, v)]

/-- Python dictionary deletion `del dict[k]` (the caller checks presence). -/
def dictDel {α β : Type} [DecidableEq α] (l : List (α × β)) (k : α) : List (α × β) :=
  l.filter (fun p => p.1 ≠ k)

/-- The reserved control-file name requesting forward pagination. -/
def nextName : Str := " next".toList

/-- The reserved control-file name requesting backward pagination. -/
def prevName : Str := " prev".toList

/-- `YTFS._YTFS__sh_script`: the fixed placeholder script returned by
control-file reads. -/
def shScript : Str := "#!/bin/sh\n".toList

/-- Python `str.split(sep)` (single-character separator): splits on every
occurrence of the separator, keeping empty chunks; the empty string splits
to one empty chunk. -/
def pySplit (sep : Char) : Str → List Str
  | [] => [[]]
  | c :: t =>
    if c = sep then
      [] :: pySplit sep t
    else
      match pySplit sep t with
      | [] => [[c]]
      | s :: rest => (c :: s) :: rest

/-- Python truthiness of an optional string: `None` and the empty string
are falsy. -/
def falsy : Option Str → Bool
  | none => true
  | some l => l.isEmpty

/-- `YTFS.__pathToTuple`: convert a path string to its two-component tuple
identifier, or fail (`PathConvertError`, modelled as `Except.error`). -/
def pathToTuple (path : Str) : Except Unit (Option Str × Option Str) :=
  if path.isEmpty || path.count '/' > 2 then
    .error ()
  else
    match pySplit '/' path with
    | [] => .error ()
    | s0 :: rest =>
      if !s0.isEmpty then
        .error ()
      else if rest.isEmpty then
        .error ()
      else
        let split := if rest.getLast? = some [] then rest.dropLast else rest
        if split.length > 2 then
          .error ()
        else
          let d := split[0]?
          let f := split[1]?
          if falsy d && !falsy f then
            .error ()
          else
            .ok (d, f)

/-- `YTFS.PathType`: classification of a tuple identifier. -/
inductive PathType
  | invalid
  | main
  | subdir
  | file
  | ctrl
deriving DecidableEq, Repr

/-- `YTFS.PathType.get` on a tuple identifier. -/
def PathType.get (p : Option Str × Option Str) : PathType :=
  match p with
  | (none, none) => .main
  | (some d, none) => if !d.isEmpty then .subdir else .invalid
  | (none, some _) => .invalid
  | (some d, some f) =>
    if !d.isEmpty && !f.isEmpty then
      if f.head? = some ' ' then .ctrl else .file
    else
      .invalid

/-- The driver state: the `searches` dictionary (phrase → search context),
the descriptor table `fds` (descriptor → Result Handle, or `none` for a
control-file descriptor), and a record of the search contexts whose
`clean()` resource release has been invoked. -/
structure YTFS where
  searches : List (Str × YTActions)
  fds : List (Nat × Option YTStor)
  cleanLog : List Str
deriving DecidableEq, Repr

/-- Python `p[0] in self.searches` (a `None` key is never present in the
string-keyed dictionary). -/
def YTFS.keyMem (fs : YTFS) (o : Option Str) : Bool :=
  match o with
  | some d => (fs.searches.lookup d).isSome
  | none => false

/-- Python `p[1] in self.searches[p[0]]`, evaluated only when the directory
key is present. -/
def YTFS.entryMemB (fs : YTFS) (p : Option Str × Option Str) : Bool :=
  match p with
  | (some d, some f) =>
    match fs.searches.lookup d with
    | some a => a.containsName f
    | none => false
  | _ => false

/-- `YTFS.__exists`: the three-way disjunction of the source. -/
def YTFS.existsT (fs : YTFS) (p : Option Str × Option Str) : Bool :=
  (falsy p.1 && falsy p.2) || (fs.keyMem p.1 && falsy p.2) || (fs.keyMem p.1 && fs.entryMemB p)

/-- `self.searches[tid[0]][tid[1]]`: `none` models the `KeyError` path. -/
def YTFS.getEntry (fs : YTFS) (p : Option Str × Option Str) : Option YTStor :=
  match p with
  | (some d, some f) =>
    match fs.searches.lookup d with
    | some a => a.entries.lookup f
    | none => none
  | _ => none

/-- `stat.S_IFDIR`. -/
def S_IFDIR : Nat := 0o040000

/-- `stat.S_IFREG`. -/
def S_IFREG : Nat := 0o100000

/-- `os.O_WRONLY`. -/
def O_WRONLY : Nat := 1

/-- `os.O_RDWR`. -/
def O_RDWR : Nat := 2

/-- The write-mode test of `YTFS.open`:
`flags & os.O_WRONLY or flags & os.O_RDWR`. -/
def wantsWrite (flags : Nat) : Bool :=
  flags &&& O_WRONLY != 0 || flags &&& O_RDWR != 0

/-- File attribute record (the `st` dictionary, cf. `man 2 stat`). -/
structure Stat where
  st_mode : Nat
  st_ino : Nat
  st_dev : Nat
  st_nlink : Nat
  st_uid : Nat
  st_gid : Nat
  st_size : Nat
  st_blksize : Nat
  st_atime : Nat
  st_mtime : Nat
  st_ctime : Nat
  st_blocks : Nat
deriving DecidableEq, Repr

/-- The class-level attribute template `YTFS.st` (uid/gid are the values
of `os.getuid()`/`os.getgid()` at start-up, taken as parameters;
`st_blocks` is only added by `getattr`). -/
def stBase (uid gid : Nat) : Stat :=
  { st_mode := S_IFDIR ||| 0o555
    st_ino := 0
    st_dev := 0
    st_nlink := 2
    st_uid := uid
    st_gid := gid
    st_size := 4096
    st_blksize := 512
    st_atime := 0
    st_mtime := 0
    st_ctime := 0
    st_blocks := 0 }

/-- `YTFS.getattr` body, after path decoding (`now` is the value of
`time()`; `math.ceil` of the block quotient is Nat ceiling division). -/
def YTFS.getattrT (fs : YTFS) (tid : Option Str × Option Str) (now uid gid : Nat) : Except Errno Stat :=
  if !fs.existsT tid then
    .error .ENOENT
  else
    let pt := PathType.get tid
    let st0 := { stBase uid gid with st_atime := now, st_mtime := now, st_ctime := now }
    let st1 :=
      if pt = .file then
        { st0 with
          st_mode := S_IFREG ||| 0o444
          st_nlink := 1
          -- the entry lookup cannot fail here: a `file`-classified tid that
          -- exists has its name among the visible entries
          st_size := match fs.getEntry tid with | some yts => yts.filesize | none => 0 }
      else if pt = .ctrl then
        { st0 with st_mode := S_IFREG ||| 0o555, st_nlink := 1, st_size := shScript.length }
      else
        st0
    .ok { st1 with st_blocks := (st1.st_size + st1.st_blksize - 1) / st1.st_blksize }

/-- `YTFS.readdir` body, after path decoding. -/
def YTFS.readdirT (fs : YTFS) (tid : Option Str × Option Str) : Except Errno (List Str) :=
  let pt := PathType.get tid
  if pt = .main then
    .ok (".".toList :: "..".toList :: fs.searches.map (fun p => p.1))
  else if pt = .subdir then
    match tid.1 with
    | some d =>
      match fs.searches.lookup d with
      | some a => .ok (".".toList :: "..".toList :: a.toNames)
      | none => .error .ENOENT
    | none => .error .ENOENT
  else if pt = .file then
    .error .ENOTDIR
  else
    .error .ENOENT

/-- `YTFS.mkdir` body, after path decoding.  `outcome` is the external
search response consumed by the `updateResults` call (empty when the
search fails).  The state is returned alongside the optional error. -/
def YTFS.mkdirT (fs : YTFS) (tid : Option Str × Option Str) (outcome : List (Str × YTStor)) : Option Errno × YTFS :=
  let pt := PathType.get tid
  if pt = .invalid ∨ pt = .file then
    (some .EPERM, fs)
  else if fs.existsT tid then
    (some .EEXIST, fs)
  else
    match tid.1 with
    | some d =>
      (none, { fs with searches := dictSet fs.searches d ((YTActions.mkNew d).updateResults none outcome) })
    | none =>
      -- unreachable: `(none, none)` always exists and `(none, some f)` is
      -- classified invalid, so both are rejected above
      (some .EEXIST, fs)

/-- `YTFS.rename` body: the old path is decoded by the decorator, the new
one inside the body (its `PathConvertError` is also caught as `EINVAL`). -/
def YTFS.renameT (fs : YTFS) (old : Option Str × Option Str) (newPath : Str) (outcome : List (Str × YTStor)) : Option Errno × YTFS :=
  match pathToTuple newPath with
  | .error _ => (some .EINVAL, fs)
  | .ok tnew =>
    if !fs.existsT old then
      (some .ENOENT, fs)
    else if PathType.get old ≠ .subdir ∨ PathType.get tnew ≠ .subdir then
      (some .EPERM, fs)
    else if fs.existsT tnew then
      (some .EEXIST, fs)
    else
      match tnew.1 with
      | some nd =>
        let fs1 := { fs with searches := dictSet fs.searches nd ((YTActions.mkNew nd).updateResults none outcome) }
        match old.1 with
        | some od =>
          if (fs1.searches.lookup od).isSome then
            (none, { fs1 with searches := dictDel fs1.searches od })
          else
            -- `del` raising `KeyError` after the new directory was created;
            -- unreachable because the old directory exists
            (some .ENOENT, fs1)
        | none => (some .ENOENT, fs1)
      | none =>
        -- unreachable: a `subdir`-classified tuple has a directory component
        (some .ENOENT, fs)

/-- `YTFS.rmdir` body, after path decoding; `clean()` on the removed
context is recorded in `cleanLog`. -/
def YTFS.rmdirT (fs : YTFS) (tid : Option Str × Option Str) : Option Errno × YTFS :=
  let pt := PathType.get tid
  if pt = .main then
    (some .EINVAL, fs)
  else if pt ≠ .subdir then
    (some .ENOTDIR, fs)
  else
    match tid.1 with
    | some d =>
      match fs.searches.lookup d with
      | some _ =>
        (none, { fs with searches := dictDel fs.searches d, cleanLog := fs.cleanLog ++ [d] })
      | none => (some .ENOENT, fs)
    | none => (some .ENOENT, fs)

/-- `YTFS.unlink` body: nothing is deleted. -/
def YTFS.unlinkT (fs : YTFS) (_tid : Option Str × Option Str) : Option Errno × YTFS :=
  (none, fs)

/-- `findFreeFrom keys k fuel`: the loop `while k in self.keys(): k += 1`
of `fd_dict.push`, with explicit fuel (the loop visits at most
`keys.length + 1` values). -/
def findFreeFrom (keys : List Nat) : Nat → Nat → Nat
  | k, 0 => k
  | k, fuel + 1 => if k ∈ keys then findFreeFrom keys (k + 1) fuel else k

/-- Descriptor-table keys. -/
def fdKeys (fds : List (Nat × Option YTStor)) : List Nat :=
  fds.map (fun p => p.1)

/-- `fd_dict.push`: allocate the lowest unused descriptor and bind it to
`yts` (`none` for a control file); returns the descriptor and the updated
table. -/
def fdPush (fds : List (Nat × Option YTStor)) (yts : Option YTStor) : Nat × List (Nat × Option YTStor) :=
  let k := findFreeFrom (fdKeys fds) 0 (fds.length + 1)
  (k, dictSet fds k yts)

/-- `YTFS.open` body, after path decoding: classification check, read-only
check, existence check, then resolution and descriptor allocation (the
`KeyError` branch allocates an unbound control descriptor). -/
def YTFS.openT (fs : YTFS) (tid : Option Str × Option Str) (flags : Nat) : Except Errno Nat × YTFS :=
  let pt := PathType.get tid
  if pt ≠ .file ∧ pt ≠ .ctrl then
    (.error .EINVAL, fs)
  else if wantsWrite flags then
    (.error .EROFS, fs)
  else if !fs.existsT tid then
    (.error .ENOENT, fs)
  else
    match fs.getEntry tid with
    | some yts =>
      if yts.obtainInfoOk then
        let p := fdPush fs.fds (some yts)
        (.ok p.1, { fs with fds := p.2 })
      else
        (.error .EINVAL, fs)
    | none =>
      let p := fdPush fs.fds none
      (.ok p.1, { fs with fds := p.2 })

/-- `YTFS.read` body, after path decoding.  A bound descriptor reads from
its Result Handle; an unbound (control) descriptor interprets the entry
name, issues exactly one pagination call on the owning directory's context
(`outcome` being that call's external response), and returns a slice of
the placeholder script; an unknown descriptor is `EBADF`, a vanished
owning directory `EINVAL`. -/
def YTFS.readT (fs : YTFS) (tid : Option Str × Option Str) (length offset fh : Nat) (outcome : List (Str × YTStor)) : Except Errno Str × YTFS :=
  match fs.fds.lookup fh with
  | none => (.error .EBADF, fs)
  | some (some yts) => (.ok (yts.read offset length), fs)
  | some none =>
    let d : Option Bool :=
      if tid.2 = some nextName then some true
      else if tid.2 = some prevName then some false
      else none
    match tid.1 with
    | some dir =>
      match fs.searches.lookup dir with
      | some a =>
        (.ok ((shScript.drop offset).take length),
         { fs with searches := dictSet fs.searches dir (a.updateResults d outcome) })
      | none => (.error .EINVAL, fs)
    | none => (.error .EINVAL, fs)

/-- `YTFS.release` body, after path decoding (the tuple identifier is
ignored by the source). -/
def YTFS.releaseT (fs : YTFS) (_tid : Option Str × Option Str) (fh : Nat) : Option Errno × YTFS :=
  if (fs.fds.lookup fh).isSome then
    (none, { fs with fds := dictDel fs.fds fh })
  else
    (some .EBADF, fs)

/-- `_pathdec`-wrapped `getattr`. -/
def YTFS.getattr (fs : YTFS) (path : Str) (now uid gid : Nat) : Except Errno Stat :=
  match pathToTuple path with
  | .error _ => .error .EINVAL
  | .ok tid => fs.getattrT tid now uid gid

/-- `_pathdec`-wrapped `readdir`. -/
def YTFS.readdir (fs : YTFS) (path : Str) : Except Errno (List Str) :=
  match pathToTuple path with
  | .error _ => .error .EINVAL
  | .ok tid => fs.readdirT tid

/-- `_pathdec`-wrapped `mkdir`. -/
def YTFS.mkdir (fs : YTFS) (path : Str) (outcome : List (Str × YTStor)) : Option Errno × YTFS :=
  match pathToTuple path with
  | .error _ => (some .EINVAL, fs)
  | .ok tid => fs.mkdirT tid outcome

/-- `_pathdec`-wrapped `rename`. -/
def YTFS.rename (fs : YTFS) (oldPath newPath : Str) (outcome : List (Str × YTStor)) : Option Errno × YTFS :=
  match pathToTuple oldPath with
  | .error _ => (some .EINVAL, fs)
  | .ok old => fs.renameT old newPath outcome

/-- `_pathdec`-wrapped `rmdir`. -/
def YTFS.rmdir (fs : YTFS) (path : Str) : Option Errno × YTFS :=
  match pathToTuple path with
  | .error _ => (some .EINVAL, fs)
  | .ok tid => fs.rmdirT tid

/-- `_pathdec`-wrapped `unlink`. -/
def YTFS.unlink (fs : YTFS) (path : Str) : Option Errno × YTFS :=
  match pathToTuple path with
  | .error _ => (some .EINVAL, fs)
  | .ok tid => fs.unlinkT tid

/-- `_pathdec`-wrapped `open`. -/
def YTFS.openOp (fs : YTFS) (path : Str) (flags : Nat) : Except Errno Nat × YTFS :=
  match pathToTuple path with
  | .error _ => (.error .EINVAL, fs)
  | .ok tid => fs.openT tid flags

/-- `_pathdec`-wrapped `read`. -/
def YTFS.read (fs : YTFS) (path : Str) (length offset fh : Nat) (outcome : List (Str × YTStor)) : Except Errno Str × YTFS :=
  match pathToTuple path with
  | .error _ => (.error .EINVAL, fs)
  | .ok tid => fs.readT tid length offset fh outcome

/-- `_pathdec`-wrapped `release`. -/
def YTFS.release (fs : YTFS) (path : Str) (fh : Nat) : Option Errno × YTFS :=
  match pathToTuple path with
  | .error _ => (some .EINVAL, fs)
  | .ok tid => fs.releaseT tid fh

/-! ### Association-list and descriptor-table lemmas -/

theorem lookup_cons_ite {α β : Type} [BEq α] [LawfulBEq α] [DecidableEq α] (k a : α) (b : β) (t : List (α × β)) :
    ((a, b) :: t).lookup k = if k = a then some b else t.lookup k := by
  by_cases h : k = a
  · subst h
    simp [List.lookup]
  · have hb : (k == a) = false := by simp [h]
    simp [List.lookup, hb, h]

theorem lookup_isSome_iff {α β : Type} [BEq α] [LawfulBEq α] [DecidableEq α] (l : List (α × β)) (k : α) :
    (l.lookup k).isSome = true ↔ k ∈ l.map Prod.fst := by
  induction l with
  | nil => simp [List.lookup]
  | cons p t ih =>
    obtain ⟨a, b⟩ := p
    rw [lookup_cons_ite]
    by_cases h : k = a <;> simp [h, ih]

theorem lookup_append_single_self {α β : Type} [BEq α] [LawfulBEq α] [DecidableEq α]
    (l : List (α × β)) (k : α) (v : β) (h : l.lookup k = none) :
    (l ++ [(k, v)]).lookup k = some v := by
  induction l with
  | nil =>
    simp only [List.nil_append]
    rw [lookup_cons_ite]
    simp
  | cons p t ih =>
    obtain ⟨a, b⟩ := p
    rw [lookup_cons_ite] at h
    rw [List.cons_append, lookup_cons_ite]
    by_cases hk : k = a
    · simp [hk] at h
    · simp only [if_neg hk] at h ⊢
      exact ih h

theorem lookup_append_single_ne {α β : Type} [BEq α] [LawfulBEq α] [DecidableEq α]
    (l : List (α × β)) (k k' : α) (v : β) (h : k' ≠ k) :
    (l ++ [(k, v)]).lookup k' = l.lookup k' := by
  induction l with
  | nil =>
    simp only [List.nil_append]
    rw [lookup_cons_ite]
    simp [h, List.lookup]
  | cons p t ih =>
    obtain ⟨a, b⟩ := p
    rw [List.cons_append, lookup_cons_ite, lookup_cons_ite]
    by_cases hk : k' = a
    · simp [hk]
    · simp only [if_neg hk]
      exact ih

theorem lookup_map_overwrite {α β : Type} [BEq α] [LawfulBEq α] [DecidableEq α]
    (k : α) (v : β) :
    ∀ l : List (α × β), (l.lookup k).isSome = true →
      (l.map (fun p => if p.1 = k then (k, v) else p)).lookup k = some v := by
  intro l
  induction l with
  | nil => intro h; simp [List.lookup] at h
  | cons p t ih =>
    obtain ⟨a, b⟩ := p
    intro h
    rw [lookup_cons_ite] at h
    by_cases hk : k = a
    · subst hk
      simp [lookup_cons_ite]
    · have hk2 : ¬ a = k := fun hh => hk hh.symm
      simp only [List.map_cons, if_neg hk2]
      rw [lookup_cons_ite, if_neg hk]
      apply ih
      simpa [hk] using h

theorem lookup_map_overwrite_ne {α β : Type} [BEq α] [LawfulBEq α] [DecidableEq α]
    (k k' : α) (v : β) (h : k' ≠ k) :
    ∀ l : List (α × β),
      (l.map (fun p => if p.1 = k then (k, v) else p)).lookup k' = l.lookup k' := by
  intro l
  induction l with
  | nil => simp
  | cons p t ih =>
    obtain ⟨a, b⟩ := p
    by_cases hk : a = k
    · subst hk
      simp only [List.map_cons, if_pos rfl]
      rw [lookup_cons_ite, lookup_cons_ite, if_neg h, if_neg (by exact h)]
      exact ih
    · simp only [List.map_cons, if_neg hk]
      rw [lookup_cons_ite, lookup_cons_ite]
      by_cases hk' : k' = a
      · simp [hk']
      · simp only [if_neg hk']
        exact ih

theorem lookup_dictSet_self {α β : Type} [BEq α] [LawfulBEq α] [DecidableEq α]
    (l : List (α × β)) (k : α) (v : β) :
    (dictSet l k v).lookup k = some v := by
  unfold dictSet
  by_cases hs : (l.lookup k).isSome = true
  · rw [if_pos hs]
    exact lookup_map_overwrite k v l hs
  · rw [if_neg hs]
    apply lookup_append_single_self
    cases h : l.lookup k with
    | none => rfl
    | some w => rw [h] at hs; simp at hs

theorem lookup_dictSet_ne {α β : Type} [BEq α] [LawfulBEq α] [DecidableEq α]
    (l : List (α × β)) (k k' : α) (v : β) (h : k' ≠ k) :
    (dictSet l k v).lookup k' = l.lookup k' := by
  unfold dictSet
  split
  · exact lookup_map_overwrite_ne k k' v h l
  · exact lookup_append_single_ne l k k' v h

theorem lookup_dictDel_self {α β : Type} [BEq α] [LawfulBEq α] [DecidableEq α]
    (l : List (α × β)) (k : α) :
    (dictDel l k).lookup k = none := by
  unfold dictDel
  induction l with
  | nil => simp
  | cons p t ih =>
    obtain ⟨a, b⟩ := p
    by_cases hk : a = k
    · simpa [List.filter_cons, hk] using ih
    · have hk' : ¬ k = a := fun hh => hk hh.symm
      simp only [List.filter_cons]
      rw [if_pos (by simp [hk])]
      rw [lookup_cons_ite, if_neg hk']
      exact ih

theorem lookup_dictDel_ne {α β : Type} [BEq α] [LawfulBEq α] [DecidableEq α]
    (l : List (α × β)) (k k' : α) (h : k' ≠ k) :
    (dictDel l k).lookup k' = l.lookup k' := by
  unfold dictDel
  induction l with
  | nil => simp
  | cons p t ih =>
    obtain ⟨a, b⟩ := p
    by_cases hk : a = k
    · subst hk
      simp only [List.filter_cons]
      rw [if_neg (by simp)]
      rw [lookup_cons_ite, if_neg h]
      exact ih
    · simp only [List.filter_cons]
      rw [if_pos (by simp [hk])]
      rw [lookup_cons_ite, lookup_cons_ite]
      by_cases hk' : k' = a
      · simp [hk']
      · simp only [if_neg hk']
        exact ih

theorem fdKeys_dictSet_new (l : List (Nat × Option YTStor)) (k : Nat) (v : Option YTStor)
    (h : k ∉ fdKeys l) :
    fdKeys (dictSet l k v) = fdKeys l ++ [k] := by
  have hl : l.lookup k = none := by
    cases hh : l.lookup k with
    | none => rfl
    | some w =>
      exfalso
      apply h
      have hk : (l.lookup k).isSome = true := by rw [hh]; rfl
      exact (lookup_isSome_iff l k).mp hk
  unfold dictSet
  rw [hl]
  simp [fdKeys]

theorem mem_fdKeys_dictDel (l : List (Nat × Option YTStor)) (k j : Nat) :
    j ∈ fdKeys (dictDel l k) ↔ j ∈ fdKeys l ∧ j ≠ k := by
  unfold fdKeys dictDel
  simp only [List.mem_map, List.mem_filter]
  constructor
  · rintro ⟨p, ⟨hp, hne⟩, rfl⟩
    simp only [decide_eq_true_eq] at hne
    exact ⟨⟨p, hp, rfl⟩, hne⟩
  · rintro ⟨⟨p, hp, rfl⟩, hne⟩
    exact ⟨p, ⟨hp, by simpa using hne⟩, rfl⟩

/-! ### Lowest-free-descriptor loop lemmas -/

theorem findFreeFrom_ge (keys : List Nat) :
    ∀ fuel k, k ≤ findFreeFrom keys k fuel := by
  intro fuel
  induction fuel with
  | zero => intro k; simp [findFreeFrom]
  | succ n ih =>
    intro k
    simp only [findFreeFrom]
    split
    · exact Nat.le_trans (Nat.le_succ k) (ih (k + 1))
    · exact Nat.le_refl k

theorem findFreeFrom_mem_below (keys : List Nat) :
    ∀ fuel k j, k ≤ j → j < findFreeFrom keys k fuel → j ∈ keys := by
  intro fuel
  induction fuel with
  | zero =>
    intro k j hkj hlt
    simp [findFreeFrom] at hlt
    omega
  | succ n ih =>
    intro k j hkj hlt
    simp only [findFreeFrom] at hlt
    by_cases hk : k ∈ keys
    · rw [if_pos hk] at hlt
      by_cases hjk : j = k
      · subst hjk; exact hk
      · exact ih (k + 1) j (by omega) hlt
    · rw [if_neg hk] at hlt
      omega

theorem findFreeFrom_not_mem (keys : List Nat) :
    ∀ fuel k, (∃ m, m < fuel ∧ (k + m) ∉ keys) → findFreeFrom keys k fuel ∉ keys := by
  intro fuel
  induction fuel with
  | zero =>
    rintro k ⟨m, hm, _⟩
    omega
  | succ n ih =>
    rintro k ⟨m, hm, hnot⟩
    simp only [findFreeFrom]
    by_cases hk : k ∈ keys
    · rw [if_pos hk]
      apply ih
      cases m with
      | zero => simp at hnot; exact absurd hk hnot
      | succ m' => exact ⟨m', by omega, by rw [show k + 1 + m' = k + (m' + 1) by omega]; exact hnot⟩
    · rw [if_neg hk]
      exact hk

theorem exists_unused (keys : List Nat) : ∃ m, m ≤ keys.length ∧ m ∉ keys := by
  by_contra h
  have hall : ∀ m, m ≤ keys.length → m ∈ keys := by
    intro m hm
    by_contra hmem
    exact h ⟨m, hm, hmem⟩
  have hsub : List.range (keys.length + 1) ⊆ keys := by
    intro m hm
    rw [List.mem_range] at hm
    exact hall m (Nat.lt_succ_iff.mp hm)
  have hsp := List.subperm_of_subset (List.nodup_range _) hsub
  have hle := hsp.length_le
  rw [List.length_range] at hle
  omega

theorem fdPush_fst_not_mem (fds : List (Nat × Option YTStor)) (v : Option YTStor) :
    (fdPush fds v).1 ∉ fdKeys fds := by
  unfold fdPush
  apply findFreeFrom_not_mem
  obtain ⟨m, hm, hnot⟩ := exists_unused (fdKeys fds)
  have hlen : (fdKeys fds).length = fds.length := by simp [fdKeys]
  exact ⟨m, by omega, by simpa using hnot⟩

theorem fdPush_fst_min (fds : List (Nat × Option YTStor)) (v : Option YTStor) :
    ∀ j, j < (fdPush fds v).1 → j ∈ fdKeys fds := by
  intro j hj
  exact findFreeFrom_mem_below (fdKeys fds) (fds.length + 1) 0 j (Nat.zero_le j) hj

theorem fdPush_fst_eq (fds : List (Nat × Option YTStor)) (v : Option YTStor) (fd : Nat)
    (hfree : fd ∉ fdKeys fds) (hmin : ∀ j, j < fd → j ∈ fdKeys fds) :
    (fdPush fds v).1 = fd := by
  rcases Nat.lt_trichotomy (fdPush fds v).1 fd with h | h | h
  · exact absurd (hmin _ h) (fdPush_fst_not_mem fds v)
  · exact h
  · exact absurd (fdPush_fst_min fds v fd h) hfree

theorem fdKeys_fdPush (fds : List (Nat × Option YTStor)) (v : Option YTStor) :
    fdKeys (fdPush fds v).2 = fdKeys fds ++ [(fdPush fds v).1] := by
  have h := fdPush_fst_not_mem fds v
  show fdKeys (dictSet fds _ v) = _
  exact fdKeys_dictSet_new fds _ v h

/-! ### Classification and existence lemmas -/

theorem pathType_subdir_iff (d : Str) :
    PathType.get (some d, none) = .subdir ↔ d ≠ [] := by
  cases d with
  | nil => simp [PathType.get]
  | cons c t => simp [PathType.get]

theorem pathType_ctrl_iff (d f : Str) :
    PathType.get (some d, some f) = .ctrl ↔ d ≠ [] ∧ f ≠ [] ∧ f.head? = some ' ' := by
  cases d with
  | nil => simp [PathType.get]
  | cons c t =>
    cases f with
    | nil => simp [PathType.get]
    | cons c2 t2 =>
      simp only [PathType.get, List.isEmpty_cons, Bool.not_false, Bool.and_self, if_true]
      by_cases h : c2 = ' ' <;> simp [List.head?, h]

theorem existsT_subdir (fs : YTFS) (d : Str) (hd : d ≠ []) :
    fs.existsT (some d, none) = (fs.searches.lookup d).isSome := by
  have hde : d.isEmpty = false := by
    cases d with
    | nil => exact absurd rfl hd
    | cons c t => rfl
  unfold YTFS.existsT YTFS.keyMem YTFS.entryMemB
  cases h : fs.searches.lookup d with
  | none => simp [falsy, hde, h]
  | some a => simp [falsy, hde, h]

theorem existsT_ctrl (fs : YTFS) (d f : Str) (hd : d ≠ []) (hf : f.head? = some ' ') :
    fs.existsT (some d, some f) = (fs.searches.lookup d).isSome := by
  obtain ⟨t, rfl⟩ : ∃ t, f = ' ' :: t := by
    cases f with
    | nil => simp at hf
    | cons c t =>
      simp [List.head?] at hf
      exact ⟨t, by rw [hf]⟩
  have hde : d.isEmpty = false := by
    cases d with
    | nil => exact absurd rfl hd
    | cons c t => rfl
  unfold YTFS.existsT YTFS.keyMem YTFS.entryMemB
  cases h : fs.searches.lookup d with
  | none => simp [falsy, hde, h]
  | some a => simp [falsy, hde, h, YTActions.containsName]

/-! ### Concrete states used by witnesses and counterexamples -/

/-- A resolvable Result Handle. -/
def yts0 : YTStor := { obtainInfoOk := true, filesize := 5, data := "hello".toList }

/-- A Result Handle whose metadata resolution fails. -/
def ytsBad : YTStor := { obtainInfoOk := false, filesize := 0, data := [] }

/-- A populated search context for the phrase `cats`. -/
def actsCats : YTActions := { phrase := "cats".toList, entries := [("v1".toList, yts0)], log := [none] }

/-- The freshly mounted filesystem state. -/
def fsEmpty : YTFS := { searches := [], fds := [], cleanLog := [] }

/-- A state with one populated search directory and one open control
descriptor. -/
def fsCats : YTFS := { searches := [("cats".toList, actsCats)], fds := [(0, none)], cleanLog := [] }

/-- A state whose only result entry fails metadata resolution. -/
def fsBad : YTFS :=
  { searches := [("cats".toList, { phrase := "cats".toList, entries := [("bad".toList, ytsBad)], log := [none] })]
    fds := []
    cleanLog := [] }

/-! ### Shared operation lemmas -/

theorem mkdirT_success (fs : YTFS) (tid : Option Str × Option Str) (outcome : List (Str × YTStor)) (d : Str)
    (hpt : PathType.get tid = .subdir ∨ PathType.get tid = .ctrl)
    (hex : fs.existsT tid = false) (hd : tid.1 = some d) :
    fs.mkdirT tid outcome =
      (none, { fs with searches := dictSet fs.searches d ((YTActions.mkNew d).updateResults none outcome) }) := by
  unfold YTFS.mkdirT
  have h1 : ¬(PathType.get tid = .invalid ∨ PathType.get tid = .file) := by
    rcases hpt with h | h <;> simp [h]
  rw [if_neg h1]
  simp only [hex]
  obtain ⟨d1, d2⟩ := tid
  simp only at hd
  subst hd
  simp

/-! ### Claims -/

/-- C1: through an open control-file descriptor (a descriptor bound to no
resource), a read on the entry named " next" issues exactly one forward
pagination call (direction argument `some true`, Python `True`) on the
owning directory's search context, a read on " prev" exactly one backward
call (`some false`), and a read on any other space-prefixed entry name
exactly one neutral call (`none`); in every case the returned bytes are
the slice `[offset, offset+length)` of the fixed placeholder script,
clipped to the script's bounds, regardless of the requested offset and
length.  The single call is visible as exactly one entry appended to the
context's call log. -/
theorem claim1_control_read (fs : YTFS) (d f : Str) (a : YTActions)
    (length offset fh : Nat) (outcome : List (Str × YTStor))
    (hfd : fs.fds.lookup fh = some none)
    (_hpt : PathType.get (some d, some f) = .ctrl)
    (hdir : fs.searches.lookup d = some a) :
    fs.readT (some d, some f) length offset fh outcome =
      (.ok ((shScript.drop offset).take length),
       { fs with searches :=
                   dictSet fs.searches d
                     ({ phrase := a.phrase, entries := outcome,
                        log := a.log ++ [if f = nextName then some true
                                         else if f = prevName then some false else none] }) }) := by
  unfold YTFS.readT
  rw [hfd]
  simp only [hdir]
  unfold YTActions.updateResults
  by_cases h1 : f = nextName
  · simp [h1]
  · by_cases h2 : f = prevName <;> simp [h1, h2]

/-- Witness for C1 at a concrete state: reading " next" through control
descriptor 0 of `fsCats` appends one forward call and returns the script. -/
theorem claim1_witness :
    fsCats.readT (some "cats".toList, some nextName) 100 0 0 [] =
      (.ok ((shScript.drop 0).take 100),
       { fsCats with searches :=
                       dictSet fsCats.searches "cats".toList
                         ({ phrase := actsCats.phrase, entries := [],
                            log := actsCats.log ++ [if nextName = nextName then some true
                                                    else if nextName = prevName then some false else none] }) }) :=
  claim1_control_read fsCats "cats".toList nextName actsCats 100 0 0 []
    (by decide) (by decide) (by decide)

/-- C3 (amended): `mkdir` fails with `EPERM` exactly on addresses
classified `invalid` or `file`; otherwise it fails with `EEXIST` whenever
the address already exists (in particular the root always exists, so
`mkdir /` yields `EEXIST`, not `EPERM`); otherwise — i.e. on a
`subdir`- or `ctrl`-classified address that does not exist — it succeeds,
installing a fresh search context keyed by the directory component. -/
theorem claim3_mkdir (fs : YTFS) (tid : Option Str × Option Str) (outcome : List (Str × YTStor)) :
    ((PathType.get tid = .invalid ∨ PathType.get tid = .file) →
       fs.mkdirT tid outcome = (some .EPERM, fs)) ∧
    (PathType.get tid ≠ .invalid → PathType.get tid ≠ .file → fs.existsT tid = true →
       fs.mkdirT tid outcome = (some .EEXIST, fs)) ∧
    ((PathType.get tid = .subdir ∨ PathType.get tid = .ctrl) → fs.existsT tid = false →
       ∀ d, tid.1 = some d →
         fs.mkdirT tid outcome =
           (none, { fs with searches := dictSet fs.searches d ((YTActions.mkNew d).updateResults none outcome) })) := by
  refine ⟨?_, ?_, ?_⟩
  · intro h
    unfold YTFS.mkdirT
    rw [if_pos h]
  · intro h1 h2 h3
    unfold YTFS.mkdirT
    rw [if_neg (not_or.mpr ⟨h1, h2⟩)]
    simp [h3]
  · intro hpt hex d hd
    exact mkdirT_success fs tid outcome d hpt hex hd

/-- Counterexample to C3 as stated: `mkdir "/"` addresses the root, yet
fails with `EEXIST` (the existence check fires), not with the claimed
`EPERM`. -/
theorem claim3_counterexample :
    fsEmpty.mkdir "/".toList [] = (some Errno.EEXIST, fsEmpty) ∧
    some Errno.EEXIST ≠ some Errno.EPERM := by
  constructor
  · decide
  · decide

/-- Witness for C3 (amended): creating a fresh search directory succeeds. -/
theorem claim3_witness :
    fsEmpty.mkdirT (some "cats".toList, none) [] =
      (none, { fsEmpty with searches := dictSet fsEmpty.searches "cats".toList ((YTActions.mkNew "cats".toList).updateResults none []) }) :=
  (claim3_mkdir fsEmpty (some "cats".toList, none) []).2.2 (Or.inl (by decide)) (by decide)
    "cats".toList rfl

/-- C4: creating a new search directory succeeds for every search
outcome — in particular for the empty outcome an unsuccessful Resolver
search degrades to — and the newly created directory remains present in
the tree afterwards; directory creation never fails merely because the
underlying search failed. -/
theorem claim4_mkdir_resolver_failure (fs : YTFS) (d : Str) (outcome : List (Str × YTStor))
    (hpt : PathType.get (some d, none) = .subdir)
    (hex : fs.existsT (some d, none) = false) :
    (fs.mkdirT (some d, none) outcome).1 = none ∧
    ((fs.mkdirT (some d, none) outcome).2.searches.lookup d).isSome = true := by
  rw [mkdirT_success fs (some d, none) outcome d (Or.inl hpt) hex rfl]
  refine ⟨rfl, ?_⟩
  show ((dictSet fs.searches d ((YTActions.mkNew d).updateResults none outcome)).lookup d).isSome = true
  rw [lookup_dictSet_self]
  rfl

/-- Witness for C4: `mkdir /cats` with a failed (empty) search outcome
still succeeds and leaves the directory in the tree. -/
theorem claim4_witness :
    (fsEmpty.mkdirT (some "cats".toList, none) []).1 = none ∧
    ((fsEmpty.mkdirT (some "cats".toList, none) []).2.searches.lookup "cats".toList).isSome = true :=
  claim4_mkdir_resolver_failure fsEmpty "cats".toList [] (by decide) (by decide)

/-- C5 (amended): `unlink` never mutates the state; it returns success for
every parseable path (existing or not), but a malformed path is rejected
with `EINVAL` by the path-decoding decorator rather than reported as
success. -/
theorem claim5_unlink (fs : YTFS) (path : Str) :
    (fs.unlink path).2 = fs ∧
    (∀ tid, pathToTuple path = .ok tid → fs.unlink path = (none, fs)) ∧
    (pathToTuple path = .error () → fs.unlink path = (some Errno.EINVAL, fs)) := by
  unfold YTFS.unlink YTFS.unlinkT
  cases h : pathToTuple path with
  | error e => simp
  | ok tid => simp

/-- Counterexample to C5 as stated: `unlink "/a/b/c"` (a malformed, too
deep path) fails with `EINVAL` instead of returning success. -/
theorem claim5_counterexample :
    (fsEmpty.unlink "/a/b/c".toList).1 = some Errno.EINVAL := by
  decide

/-- Witness for C5 (amended): `unlink` of a parseable path succeeds and
leaves the state unchanged. -/
theorem claim5_witness :
    fsEmpty.unlink "/cats".toList = (none, fsEmpty) :=
  (claim5_unlink fsEmpty "/cats".toList).2.1 (some "cats".toList, none) rfl

/-- C6: `rename(old, new)` fails with `ENOENT` when `old` does not exist;
when `old` exists it fails with `EPERM` whenever `old` or `new` does not
classify as a search directory — in particular whenever `old` is a result
file — and with `EEXIST` when both classify as search directories but
`new` already exists; on every such failure the state is returned
unchanged. -/
theorem claim6_rename_failures (fs : YTFS) (old tnew : Option Str × Option Str) (newPath : Str)
    (outcome : List (Str × YTStor))
    (hparse : pathToTuple newPath = .ok tnew) :
    (fs.existsT old = false → fs.renameT old newPath outcome = (some Errno.ENOENT, fs)) ∧
    (fs.existsT old = true → (PathType.get old ≠ .subdir ∨ PathType.get tnew ≠ .subdir) →
       fs.renameT old newPath outcome = (some Errno.EPERM, fs)) ∧
    (fs.existsT old = true → PathType.get old = .file →
       fs.renameT old newPath outcome = (some Errno.EPERM, fs)) ∧
    (fs.existsT old = true → PathType.get old = .subdir → PathType.get tnew = .subdir →
       fs.existsT tnew = true →
       fs.renameT old newPath outcome = (some Errno.EEXIST, fs)) := by
  unfold YTFS.renameT
  rw [hparse]
  refine ⟨?_, ?_, ?_, ?_⟩
  · intro h
    simp [h]
  · intro h1 h2
    simp [h1, h2]
  · intro h1 h2
    have h3 : PathType.get old ≠ .subdir := by
      rw [h2]
      intro hc
      cases hc
    simp [h1, h3]
  · intro h1 h2 h3 h4
    simp [h1, h2, h3, h4]

/-- Witness for C6: renaming the existing result file `/cats/v1` fails
with `EPERM` and leaves the state unchanged. -/
theorem claim6_witness :
    fsCats.renameT (some "cats".toList, some "v1".toList) "/dogs".toList [] =
      (some Errno.EPERM, fsCats) :=
  (claim6_rename_failures fsCats (some "cats".toList, some "v1".toList)
      (some "dogs".toList, none) "/dogs".toList [] rfl).2.2.1 (by decide) (by decide)

/-- C7: a successful rename of a search directory is
create-then-delete: the new name is bound to a freshly constructed search
context keyed by the new phrase on which the search is re-issued (one
initial call, entries equal to the fresh search's outcome, independent of
the old directory's entries), and the old directory is then deleted; the
old result entries are not preserved under the new name. -/
theorem claim7_rename_recreate (fs : YTFS) (od nd : Str) (newPath : Str) (outcome : List (Str × YTStor))
    (hparse : pathToTuple newPath = .ok (some nd, none))
    (hold : PathType.get (some od, none) = .subdir)
    (hnew : PathType.get (some nd, none) = .subdir)
    (hex : fs.existsT (some od, none) = true)
    (hnex : fs.existsT (some nd, none) = false) :
    fs.renameT (some od, none) newPath outcome =
      (none, { fs with searches :=
                 dictDel (dictSet fs.searches nd ((YTActions.mkNew nd).updateResults none outcome)) od }) ∧
    (fs.renameT (some od, none) newPath outcome).2.searches.lookup nd =
      some ((YTActions.mkNew nd).updateResults none outcome) ∧
    (fs.renameT (some od, none) newPath outcome).2.searches.lookup od = none := by
  have hodne : od ≠ [] := (pathType_subdir_iff od).mp hold
  have hndne : nd ≠ [] := (pathType_subdir_iff nd).mp hnew
  have hodm : (fs.searches.lookup od).isSome = true := by
    rw [← existsT_subdir fs od hodne]
    exact hex
  have hndm : (fs.searches.lookup nd).isSome = false := by
    rw [← existsT_subdir fs nd hndne]
    exact hnex
  have hne : nd ≠ od := by
    intro h
    rw [h, hodm] at hndm
    cases hndm
  have hlk : ((dictSet fs.searches nd ((YTActions.mkNew nd).updateResults none outcome)).lookup od).isSome = true := by
    rw [lookup_dictSet_ne _ _ _ _ (fun h => hne h.symm)]
    exact hodm
  have hmain : fs.renameT (some od, none) newPath outcome =
      (none, { fs with searches :=
                 dictDel (dictSet fs.searches nd ((YTActions.mkNew nd).updateResults none outcome)) od }) := by
    simp only [YTFS.renameT, hparse, hex, hold, hnew, hnex]
    simp only [hlk]
    simp
  refine ⟨hmain, ?_, ?_⟩
  · rw [hmain]
    show ((dictDel (dictSet fs.searches nd ((YTActions.mkNew nd).updateResults none outcome)) od).lookup nd) = _
    rw [lookup_dictDel_ne _ _ _ hne, lookup_dictSet_self]
  · rw [hmain]
    show ((dictDel (dictSet fs.searches nd ((YTActions.mkNew nd).updateResults none outcome)) od).lookup od) = none
    exact lookup_dictDel_self _ _

/-- Witness for C7: renaming `/cats` (whose context holds entry `v1`) to
`/dogs` installs a fresh `dogs` context holding only the fresh outcome
`w1` and deletes `cats`. -/
theorem claim7_witness :
    fsCats.renameT (some "cats".toList, none) "/dogs".toList [("w1".toList, yts0)] =
      (none, { fsCats with searches :=
                               dictDel
                                 (dictSet fsCats.searches "dogs".toList
                                   ((YTActions.mkNew "dogs".toList).updateResults none [("w1".toList, yts0)]))
                                 "cats".toList }) ∧
    (fsCats.renameT (some "cats".toList, none) "/dogs".toList [("w1".toList, yts0)]).2.searches.lookup "dogs".toList =
      some ((YTActions.mkNew "dogs".toList).updateResults none [("w1".toList, yts0)]) ∧
    (fsCats.renameT (some "cats".toList, none) "/dogs".toList [("w1".toList, yts0)]).2.searches.lookup "cats".toList = none :=
  claim7_rename_recreate fsCats "cats".toList "dogs".toList "/dogs".toList [("w1".toList, yts0)]
    rfl (by decide) (by decide) (by decide) (by decide)

/-- C8: descriptor allocation always succeeds and returns the smallest
non-negative integer not currently allocated; it never duplicates a live
descriptor (distinctness of the table's keys is preserved); `release`
fails with `EBADF` exactly when the descriptor is not allocated, and a
successful `release` immediately frees the descriptor, so the next
allocation returns it whenever it is still the minimum unused value. -/
theorem claim8_descriptor_table (fds : List (Nat × Option YTStor)) (v : Option YTStor)
    (fs : YTFS) (tid : Option Str × Option Str) (fd : Nat) :
    ((fdPush fds v).1 ∉ fdKeys fds) ∧
    (∀ j, j < (fdPush fds v).1 → j ∈ fdKeys fds) ∧
    ((fdPush fds v).1 ∈ fdKeys (fdPush fds v).2) ∧
    ((fdKeys fds).Nodup → (fdKeys (fdPush fds v).2).Nodup) ∧
    ((fs.releaseT tid fd).1 = some Errno.EBADF ↔ fd ∉ fdKeys fs.fds) ∧
    (fd ∈ fdKeys fs.fds →
       (fs.releaseT tid fd).1 = none ∧ fd ∉ fdKeys (fs.releaseT tid fd).2.fds) ∧
    (fd ∉ fdKeys fds → (∀ j, j < fd → j ∈ fdKeys fds) → (fdPush fds v).1 = fd) := by
  refine ⟨fdPush_fst_not_mem fds v, fdPush_fst_min fds v, ?_, ?_, ?_, ?_, fdPush_fst_eq fds v fd⟩
  · rw [fdKeys_fdPush]
    simp
  · intro hnd
    rw [fdKeys_fdPush]
    have h := fdPush_fst_not_mem fds v
    simp [List.nodup_append, hnd, h]
  · unfold YTFS.releaseT
    by_cases h : (fs.fds.lookup fd).isSome = true
    · rw [if_pos h]
      constructor
      · intro hc
        exact Option.noConfusion hc
      · intro hc
        exact absurd ((lookup_isSome_iff _ _).mp h) hc
    · rw [if_neg h]
      constructor
      · intro _ hc
        exact h ((lookup_isSome_iff _ _).mpr hc)
      · intro _
        rfl
  · intro hmem
    have h : (fs.fds.lookup fd).isSome = true := (lookup_isSome_iff _ _).mpr hmem
    unfold YTFS.releaseT
    rw [if_pos h]
    refine ⟨rfl, ?_⟩
    show fd ∉ fdKeys (dictDel fs.fds fd)
    rw [mem_fdKeys_dictDel]
    rintro ⟨-, hc⟩
    exact hc rfl

/-- Witness for C8: on the table `{0, 2}` the allocator returns the gap 1;
releasing the live descriptor 0 of `fsCats` succeeds, and releasing the
unallocated descriptor 5 fails with `EBADF`. -/
theorem claim8_witness :
    (fdPush [(0, (none : Option YTStor)), (2, none)] none).1 = 1 ∧
    (fsCats.releaseT (none, none) 0).1 = none ∧
    (fsCats.releaseT (none, none) 5).1 = some Errno.EBADF := by
  refine ⟨?_, ?_, ?_⟩
  · exact (claim8_descriptor_table [(0, none), (2, none)] none fsCats (none, none) 1).2.2.2.2.2.2
      (by decide) (by decide)
  · exact ((claim8_descriptor_table [] none fsCats (none, none) 0).2.2.2.2.2.1 (by decide)).1
  · exact (claim8_descriptor_table [] none fsCats (none, none) 5).2.2.2.2.1.mpr (by decide)

/-- C9 (amended): `open` checks classification first — an address that is
neither a result file nor a control file fails with `EINVAL` even when
write flags are requested — then fails with `EROFS` when write flags are
requested, then with `ENOENT` when the address does not exist, and
finally with `EINVAL` when Result-Handle resolution fails; in the
resolution-failure case the call aborts with the state (in particular the
descriptor table) unchanged and no descriptor allocated. -/
theorem claim9_open (fs : YTFS) (tid : Option Str × Option Str) (flags : Nat) (yts : YTStor) :
    (PathType.get tid ≠ .file ∧ PathType.get tid ≠ .ctrl →
       fs.openT tid flags = (.error Errno.EINVAL, fs)) ∧
    ((PathType.get tid = .file ∨ PathType.get tid = .ctrl) → wantsWrite flags = true →
       fs.openT tid flags = (.error Errno.EROFS, fs)) ∧
    ((PathType.get tid = .file ∨ PathType.get tid = .ctrl) → wantsWrite flags = false →
       fs.existsT tid = false → fs.openT tid flags = (.error Errno.ENOENT, fs)) ∧
    ((PathType.get tid = .file ∨ PathType.get tid = .ctrl) → wantsWrite flags = false →
       fs.existsT tid = true → fs.getEntry tid = some yts → yts.obtainInfoOk = false →
       fs.openT tid flags = (.error Errno.EINVAL, fs)) := by
  refine ⟨?_, ?_, ?_, ?_⟩
  · intro h
    unfold YTFS.openT
    rw [if_pos h]
  · intro h1 h2
    unfold YTFS.openT
    rw [if_neg (by rcases h1 with h | h <;> simp [h])]
    simp [h2]
  · intro h1 h2 h3
    unfold YTFS.openT
    rw [if_neg (by rcases h1 with h | h <;> simp [h])]
    simp [h2, h3]
  · intro h1 h2 h3 h4 h5
    unfold YTFS.openT
    rw [if_neg (by rcases h1 with h | h <;> simp [h])]
    simp [h2, h3, h4, h5]

/-- Counterexample to C9 as stated: `open "/"` with the write flag
`O_WRONLY` fails with `EINVAL` (classification is checked first), not with
the claimed `EROFS`. -/
theorem claim9_counterexample :
    fsEmpty.openOp "/".toList O_WRONLY = (.error Errno.EINVAL, fsEmpty) ∧
    Errno.EINVAL ≠ Errno.EROFS := by
  constructor
  · rfl
  · decide

/-- Witness for C9 (amended): opening `/cats/bad`, whose Result Handle
fails to resolve, aborts with `EINVAL` and the state unchanged. -/
theorem claim9_witness :
    fsBad.openT (some "cats".toList, some "bad".toList) 0 = (.error Errno.EINVAL, fsBad) :=
  (claim9_open fsBad (some "cats".toList, some "bad".toList) 0 ytsBad).2.2.2
    (Or.inl (by decide)) (by decide) (by decide) (by decide) (by decide)

/-- C10 (amended): `mkdir` on a control-file address is not rejected by
the permission check; but because every space-prefixed entry name of an
existing parent directory is reported as existing, the existence check
then fails the call with `EEXIST` and the parent's search context is left
untouched; the context-replacing branch is reached only when the parent
directory itself is absent, in which case a fresh context keyed by the
directory name is installed (with no `clean()` release call recorded). -/
theorem claim10_mkdir_ctrl (fs : YTFS) (d f : Str) (outcome : List (Str × YTStor))
    (hpt : PathType.get (some d, some f) = .ctrl) :
    ((fs.mkdirT (some d, some f) outcome).1 ≠ some Errno.EPERM) ∧
    ((fs.searches.lookup d).isSome = true →
       fs.mkdirT (some d, some f) outcome = (some Errno.EEXIST, fs)) ∧
    ((fs.searches.lookup d).isSome = false →
       fs.mkdirT (some d, some f) outcome =
         (none, { fs with searches := dictSet fs.searches d ((YTActions.mkNew d).updateResults none outcome) })) := by
  obtain ⟨hd, hf, hhead⟩ := (pathType_ctrl_iff d f).mp hpt
  have hex : fs.existsT (some d, some f) = (fs.searches.lookup d).isSome :=
    existsT_ctrl fs d f hd hhead
  have hperm : ¬(PathType.get (some d, some f) = .invalid ∨ PathType.get (some d, some f) = .file) := by
    simp [hpt]
  refine ⟨?_, ?_, ?_⟩
  · unfold YTFS.mkdirT
    rw [if_neg hperm]
    cases h : (fs.searches.lookup d).isSome with
    | true =>
      rw [hex, h]
      simp
    | false =>
      rw [hex, h]
      simp
  · intro h
    unfold YTFS.mkdirT
    rw [if_neg hperm, hex, h]
    simp
  · intro h
    exact mkdirT_success fs (some d, some f) outcome d (Or.inr hpt) (by rw [hex, h]) rfl

/-- Counterexample to C10 as stated: in `fsCats` the parent `cats` exists
and its entries do not contain " x", yet `mkdir "/cats/ x"` fails with
`EEXIST` and leaves the parent's context untouched instead of replacing
it. -/
theorem claim10_counterexample :
    actsCats.entries.lookup " x".toList = none ∧
    fsCats.mkdirT (some "cats".toList, some " x".toList) [] = (some Errno.EEXIST, fsCats) := by
  constructor
  · decide
  · decide

/-- Witness for C10 (amended): when the parent is absent, `mkdir` of a
control-file address succeeds and installs a fresh context keyed by the
directory name. -/
theorem claim10_witness :
    fsEmpty.mkdirT (some "cats".toList, some " x".toList) [] =
      (none, { fsEmpty with searches :=
                               dictSet fsEmpty.searches "cats".toList
                                 ((YTActions.mkNew "cats".toList).updateResults none []) }) :=
  (claim10_mkdir_ctrl fsEmpty "cats".toList " x".toList [] (by decide)).2.2 (by decide)

/-! ### Path-grammar lemmas for the invalid-path claim -/

/-- The malformed-path conditions of the specification: empty string, no
leading root separator, more than two segments after the leading
separator is stripped, or a non-empty entry segment with an empty
directory segment. -/
def claimBad (path : Str) : Bool :=
  path.isEmpty || path.head? != some '/' ||
    decide ((pySplit '/' (path.drop 1)).length > 2) ||
    (match pySplit '/' (path.drop 1) with
     | s0 :: s1 :: _ => s0.isEmpty && !s1.isEmpty
     | _ => false)

/-- The number of non-empty `/`-delimited segments of the whole string. -/
def nonemptySegs (path : Str) : Nat :=
  ((pySplit '/' path).filter (fun s => !s.isEmpty)).length

theorem pySplit_ne_nil (sep : Char) : ∀ l : Str, pySplit sep l ≠ [] := by
  intro l
  cases l with
  | nil => simp [pySplit]
  | cons c t =>
    simp only [pySplit]
    by_cases h : c = sep
    · simp [h]
    · rw [if_neg h]
      cases hh : pySplit sep t with
      | nil => simp
      | cons s rest => simp

theorem length_pySplit (sep : Char) : ∀ l : Str, (pySplit sep l).length = l.count sep + 1 := by
  intro l
  induction l with
  | nil => simp [pySplit]
  | cons c t ih =>
    simp only [pySplit]
    by_cases h : c = sep
    · rw [if_pos h]
      simp [List.count_cons, h, ih]
    · rw [if_neg h]
      cases hh : pySplit sep t with
      | nil => exact absurd hh (pySplit_ne_nil sep t)
      | cons s rest =>
        rw [hh] at ih
        simp only [List.length_cons] at ih ⊢
        simp [List.count_cons, h, ih]

theorem pySplit_cons_ne (sep c : Char) (t : Str) (h : c ≠ sep) :
    ∃ s rest, pySplit sep t = s :: rest ∧ pySplit sep (c :: t) = (c :: s) :: rest := by
  cases hh : pySplit sep t with
  | nil => exact absurd hh (pySplit_ne_nil sep t)
  | cons s rest =>
    refine ⟨s, rest, rfl, ?_⟩
    simp only [pySplit]
    rw [if_neg h, hh]

theorem pySplit_cons_sep (sep : Char) (t : Str) :
    pySplit sep (sep :: t) = [] :: pySplit sep t := by
  simp [pySplit]

theorem pySplit_head_empty (sep : Char) (t : Str) (l2 : List Str)
    (h : pySplit sep t = [] :: l2) :
    (t = [] ∧ l2 = []) ∨ ∃ t2, t = sep :: t2 ∧ l2 = pySplit sep t2 := by
  cases t with
  | nil =>
    left
    simp only [pySplit] at h
    injection h with h1 h2
    exact ⟨rfl, h2.symm⟩
  | cons c t2 =>
    by_cases hc : c = sep
    · right
      subst hc
      refine ⟨t2, rfl, ?_⟩
      simp only [pySplit, if_pos rfl] at h
      injection h with h1 h2
      exact h2.symm
    · exfalso
      obtain ⟨s, rest, hs, hcons⟩ := pySplit_cons_ne sep c t2 hc
      rw [hcons] at h
      injection h with h1 h2
      exact List.noConfusion h1

theorem pySplit_no_sep (sep : Char) : ∀ l : Str, l.count sep = 0 → pySplit sep l = [l] := by
  intro l
  induction l with
  | nil => intro _; simp [pySplit]
  | cons c t ih =>
    intro h
    have hc : c ≠ sep := by
      intro hh
      subst hh
      simp [List.count_cons] at h
    have ht : t.count sep = 0 := by
      simpa [List.count_cons, hc] using h
    simp only [pySplit]
    rw [if_neg hc, ih ht]

theorem pathToTuple_error_of_shallow (path : Str)
    (h : path.isEmpty = true ∨ path.count '/' > 2) :
    pathToTuple path = .error () := by
  unfold pathToTuple
  rcases h with h | h
  · rw [if_pos (by simp [h])]
  · rw [if_pos (by simp [h])]

theorem pathToTuple_error_not_slash (c : Char) (t : Str) (hc : c ≠ '/') :
    pathToTuple (c :: t) = .error () := by
  by_cases hcount : (c :: t).count '/' > 2
  · exact pathToTuple_error_of_shallow _ (Or.inr hcount)
  · unfold pathToTuple
    rw [if_neg (by simp [hcount])]
    obtain ⟨s, rest, hs, hcons⟩ := pySplit_cons_ne '/' c t hc
    rw [hcons]
    simp

theorem pathToTuple_error_double_slash (t2 : Str) (hne : t2 ≠ []) (hcount : t2.count '/' = 0) :
    pathToTuple ('/' :: '/' :: t2) = .error () := by
  have hc : ('/' :: '/' :: t2).count '/' = 2 := by
    simp [List.count_cons, hcount]
  unfold pathToTuple
  rw [if_neg (by simp [hc])]
  have h1 : pySplit '/' ('/' :: '/' :: t2) = [] :: [] :: [t2] := by
    rw [pySplit_cons_sep, pySplit_cons_sep, pySplit_no_sep '/' t2 hcount]
  rw [h1]
  simp [hne, falsy, List.isEmpty_iff]

theorem claimBad_error (path : Str) (h : claimBad path = true) :
    pathToTuple path = .error () := by
  unfold claimBad at h
  cases path with
  | nil => exact pathToTuple_error_of_shallow [] (Or.inl rfl)
  | cons c t =>
    by_cases hc : c = '/'
    case neg => exact pathToTuple_error_not_slash c t hc
    case pos =>
      subst hc
      simp only [List.isEmpty_cons, List.head?_cons, List.drop_succ_cons, List.drop_zero,
        bne_self_eq_false, Bool.false_or, Bool.or_eq_true, decide_eq_true_eq] at h
      rcases h with h | h
      · have hcnt : t.count '/' + 1 > 2 := by
          rw [← length_pySplit '/' t]
          exact h
        apply pathToTuple_error_of_shallow
        right
        simp [List.count_cons]
        omega
      · cases hsp : pySplit '/' t with
        | nil => exact absurd hsp (pySplit_ne_nil '/' t)
        | cons s0 tail =>
          cases tail with
          | nil => rw [hsp] at h; simp at h
          | cons s1 rest =>
            rw [hsp] at h
            simp only [List.isEmpty_iff, Bool.and_eq_true, Bool.not_eq_true', List.isEmpty_eq_false] at h
            obtain ⟨hs0, hs1⟩ := h
            subst hs0
            rcases pySplit_head_empty '/' t (s1 :: rest) hsp with ⟨ht, hl⟩ | ⟨t2, ht, hl⟩
            · exact absurd hl (List.cons_ne_nil s1 rest)
            · subst ht
              by_cases hc2 : t2.count '/' = 0
              · have hsp2 : pySplit '/' t2 = [t2] := pySplit_no_sep '/' t2 hc2
                rw [hsp2] at hl
                injection hl with h1 h2
                exact pathToTuple_error_double_slash t2 (by rw [← h1]; exact hs1) hc2
              · apply pathToTuple_error_of_shallow
                right
                have hcc : ('/' :: '/' :: t2).count '/' = t2.count '/' + 2 := by
                  simp [List.count_cons]
                rw [hcc]
                omega

theorem nonemptySegs_bad (path : Str) (h : nonemptySegs path > 2) : claimBad path = true := by
  unfold nonemptySegs at h
  cases path with
  | nil =>
    simp [pySplit] at h
  | cons c t =>
    by_cases hc : c = '/'
    · subst hc
      have h1 : pySplit '/' ('/' :: t) = [] :: pySplit '/' t := by
        simp [pySplit]
      rw [h1] at h
      rw [List.filter_cons_of_neg (by simp)] at h
      have hlen : (pySplit '/' t).length > 2 :=
        lt_of_lt_of_le h (List.length_filter_le _ _)
      unfold claimBad
      simp only [List.drop_succ_cons, List.drop_zero]
      simp [hlen]
    · unfold claimBad
      have : (some c != some '/') = true := by
        simp [bne, hc]
      simp [this]

/-- C2: every path string that is empty, does not start with the root
separator, decomposes into more than two segments after the leading
separator is stripped, or has a non-empty entry segment without a
non-empty directory segment — and in particular every string with more
than two `/`-delimited non-empty segments — is rejected by path parsing,
and the failure is surfaced as `EINVAL` by every filesystem handler (for
`rename`, in either argument position). -/
theorem claim2_invalid_paths (path : Str) (fs : YTFS)
    (now uid gid flags length offset fh : Nat)
    (outcome : List (Str × YTStor)) (other : Str)
    (h : claimBad path = true ∨ nonemptySegs path > 2) :
    pathToTuple path = .error () ∧
    fs.getattr path now uid gid = .error Errno.EINVAL ∧
    fs.readdir path = .error Errno.EINVAL ∧
    fs.mkdir path outcome = (some Errno.EINVAL, fs) ∧
    fs.rename path other outcome = (some Errno.EINVAL, fs) ∧
    fs.rename other path outcome = (some Errno.EINVAL, fs) ∧
    fs.rmdir path = (some Errno.EINVAL, fs) ∧
    fs.unlink path = (some Errno.EINVAL, fs) ∧
    fs.openOp path flags = (.error Errno.EINVAL, fs) ∧
    fs.read path length offset fh outcome = (.error Errno.EINVAL, fs) ∧
    fs.release path fh = (some Errno.EINVAL, fs) := by
  have herr : pathToTuple path = .error () := by
    rcases h with h | h
    · exact claimBad_error path h
    · exact claimBad_error path (nonemptySegs_bad path h)
  refine ⟨herr, ?_, ?_, ?_, ?_, ?_, ?_, ?_, ?_, ?_, ?_⟩
  · simp [YTFS.getattr, herr]
  · simp [YTFS.readdir, herr]
  · simp [YTFS.mkdir, herr]
  · simp [YTFS.rename, herr]
  · cases hp : pathToTuple other with
    | error e => simp [YTFS.rename, hp]
    | ok old => simp [YTFS.rename, hp, YTFS.renameT, herr]
  · simp [YTFS.rmdir, herr]
  · simp [YTFS.unlink, herr]
  · simp [YTFS.openOp, herr]
  · simp [YTFS.read, herr]
  · simp [YTFS.release, herr]

/-- Witness for C2 at the concrete malformed path `abc` (no leading
separator): parsing fails and every handler returns `EINVAL`. -/
theorem claim2_witness :
    pathToTuple "abc".toList = .error () ∧
    fsEmpty.getattr "abc".toList 0 0 0 = .error Errno.EINVAL ∧
    fsEmpty.readdir "abc".toList = .error Errno.EINVAL ∧
    fsEmpty.mkdir "abc".toList [] = (some Errno.EINVAL, fsEmpty) ∧
    fsEmpty.rename "abc".toList "/x".toList [] = (some Errno.EINVAL, fsEmpty) ∧
    fsEmpty.rename "/x".toList "abc".toList [] = (some Errno.EINVAL, fsEmpty) ∧
    fsEmpty.rmdir "abc".toList = (some Errno.EINVAL, fsEmpty) ∧
    fsEmpty.unlink "abc".toList = (some Errno.EINVAL, fsEmpty) ∧
    fsEmpty.openOp "abc".toList 0 = (.error Errno.EINVAL, fsEmpty) ∧
    fsEmpty.read "abc".toList 0 0 0 [] = (.error Errno.EINVAL, fsEmpty) ∧
    fsEmpty.release "abc".toList 0 = (some Errno.EINVAL, fsEmpty) :=
  claim2_invalid_paths "abc".toList fsEmpty 0 0 0 0 0 0 0 [] "/x".toList (Or.inl (by decide))
